import Mathlib

/-!
Verification development for the naming-condition rule engine of the
`flask_engineering_drafting_tools_app` repository.

The engine lives twice in the source, as nested helper functions:
* `src/PythonScriptTools/get_customer_job_structure.py` (`apply_naming_conditions`,
  `matches_condition_with_chains`, `matches_condition`, `apply_replacement`,
  `convert_intuitive_pattern`, `apply_intuitive_replacement`) — embedded below in
  namespace `scanner`;
* `src/database.py` (`apply_naming_conditions_to_structure` and its nested
  helpers) — embedded below in namespace `db`.

Helper functions that are character-for-character identical in the two files
(`convert_intuitive_pattern`, `apply_intuitive_replacement`, and the constant
regular expressions) are defined once at top level and referenced from both
namespaces.

Modelling conventions:
* Python strings are modelled as `List Char` (wrapped in `String` at the API).
* Python's `re` module is modelled by a small backtracking engine over the
  syntax actually used by the program: literals, escapes `\d \w \s` and
  escaped punctuation, `.`, character classes with ranges, capturing and
  `(?:...)` groups, alternation `|`, and the quantifiers `* + ? {n} {n,m} {n,}`.
  Search is leftmost-position, greedy/backtracking, as in Python; a group's
  capture is the text of its last successful match.  Character classes `\d`,
  `\w`, `\s` are modelled over ASCII.  Constructs the program never produces
  (anchors, backreferences, lazy quantifiers, `\g<...>` templates) make the
  parser fail; no theorem below depends on inputs using them.
* A raised `re.error` is modelled by `PRes.exn`; code paths that wrap a
  `try/except re.error` handle the failure locally and stay in `PRes.ok`.
* An `re.sub` whose replacement is a *string* parses it as a template before
  matching (Python ≥ 3.7 semantics): a bad escape such as `\s` in the
  template raises `re.error` on every call.  `re.sub` with a *callable*
  replacement performs no template parsing.
* Bounded scans are written with an explicit fuel argument that is always
  sufficient (each step consumes at least one character); the fuel-exhausted
  arm is unreachable on every input.
-/

/-- Model of a raised `re.error` (sre compilation failure). -/
inductive ReErr where
  | patternErr
deriving DecidableEq

/-- Result of a Python call that may raise: either a value or an exception. -/
inductive PRes (α : Type) where
  | ok (a : α)
  | exn (e : ReErr)
deriving DecidableEq

/-- Map a pure function over the value of a non-raising result. -/
def PRes.map {α β : Type} (f : α → β) : PRes α → PRes β
  | .ok a => .ok (f a)
  | .exn e => .exn e

/-- `true` when the computation did not raise. -/
def PRes.isOk {α : Type} : PRes α → Bool
  | .ok _ => true
  | .exn _ => false

/-- One capture slot recorded while compiling an intuitive pattern
(`captures.append(...)` in `apply_intuitive_replacement`). -/
inductive Capture where
  | digits (n : Nat)
  | customer
  | date
  | word
  | text
deriving DecidableEq

/-- One chained sub-condition (an element of a condition's `chains` list). -/
structure ChainLink where
  pattern : String
  ctype : String
  operator : Option String
deriving DecidableEq

/-- One naming condition as the engine consumes it.  `ctype` is the Python
dict key `type` (`condition_type` in the database row). -/
structure NamingCondition where
  ctype : String
  pattern : String
  replacement : String
  chains : List ChainLink
  enabled : Bool
deriving DecidableEq

/-- The slice of a structure item the bulk-apply path reads and writes:
`item['name']` (never mutated) and `item['alias']`. -/
structure Item where
  name : String
  «alias» : String
deriving DecidableEq

/-! ### Python string primitives -/

/-- Python `str.replace` on non-empty patterns: scan left to right, replace
every non-overlapping occurrence.  Fuelled; each step consumes at least one
character, so `s.length + 1` fuel always suffices. -/
def pyReplaceGo : Nat → List Char → List Char → List Char → List Char
  | 0, s, _, _ => s
  | f + 1, s, pat, repl =>
    match s with
    | [] => []
    | c :: rest =>
      if pat.isPrefixOf (c :: rest) then
        repl ++ pyReplaceGo f ((c :: rest).drop pat.length) pat repl
      else c :: pyReplaceGo f rest pat repl

/-- Python `s.replace(pat, repl)`, including the empty-pattern behaviour
(`"ab".replace("", "x") == "xaxbx"`). -/
def pyReplace (s pat repl : List Char) : List Char :=
  if pat.isEmpty then repl ++ s.foldr (fun c acc => c :: (repl ++ acc)) []
  else pyReplaceGo (s.length + 1) s pat repl

/-- `String`-level wrapper for `pyReplace`. -/
def pyReplaceS (s pat repl : String) : String :=
  (pyReplace s.data pat.data repl.data).asString

/-- Python's `pat in s` membership test on strings: `pat` occurs as a
contiguous substring of `s`. -/
def isSubstring (pat : List Char) : List Char → Bool
  | [] => pat.isEmpty
  | c :: rest => pat.isPrefixOf (c :: rest) || isSubstring pat rest

/-! ### The constant regex `\d{5}` (job numbers)

`bool(re.search(r'\d{5}', name))` is transcribed directly: the search
succeeds exactly when some position of the string starts five consecutive
digits. -/

/-- `\d{5}` matches at the start of `s`. -/
def fiveDigitsHere : List Char → Bool
  | c1 :: c2 :: c3 :: c4 :: c5 :: _ =>
      c1.isDigit && c2.isDigit && c3.isDigit && c4.isDigit && c5.isDigit
  | _ => false

/-- `re.search(r'\d{5}', s)` as a boolean: try every start position, left to
right. -/
def searchFiveDigits : List Char → Bool
  | [] => false
  | c :: rest => fiveDigitsHere (c :: rest) || searchFiveDigits rest

/-- `re.search(r'\d{5}', s).group(0)`: the five digits at the leftmost
matching position. -/
def firstFiveDigits : List Char → Option (List Char)
  | [] => none
  | c :: rest =>
    if fiveDigitsHere (c :: rest) then some ((c :: rest).take 5)
    else firstFiveDigits rest

/-! ### Regex engine -/

/-- One member of a character class `[...]`. -/
inductive ClsIt where
  | single (c : Char)
  | range (lo hi : Char)
deriving DecidableEq

/-- Abstract syntax of the regex subset the program generates. -/
inductive RAst where
  | eps
  | lit (c : Char)
  | anyChar
  | dcls
  | wcls
  | scls
  | cls (neg : Bool) (items : List ClsIt)
  | seq (a b : RAst)
  | alt (a b : RAst)
  | rep (a : RAst) (lo : Nat) (hi : Option Nat)
  | grp (idx : Nat) (a : RAst)
  | ngrp (a : RAst)
deriving DecidableEq

/-- A compiled pattern: its syntax tree and its number of capturing groups. -/
structure CompiledRe where
  ast : RAst
  ncaps : Nat
deriving DecidableEq

/-- ASCII model of Python's `\w`. -/
def isWordChar (c : Char) : Bool := c.isAlphanum || c == '_'

/-- ASCII model of Python's `\s`. -/
def isSpaceChar (c : Char) : Bool :=
  c == ' ' || c == '\t' || c == '\n' || c == '\r' || c == '\x0b' || c == '\x0c'

/-- Membership of a character in one class item. -/
def clsItMatch (c : Char) : ClsIt → Bool
  | .single a => c == a
  | .range lo hi => decide (lo ≤ c) && decide (c ≤ hi)

/-- Backtracking matcher in continuation style.  Alternatives are tried left
to right and quantifiers greedily, as in Python's engine; `caps` carries the
text of each capturing group's last match.  A repetition whose body matches
without consuming input stops iterating (Python's empty-match rule). -/
def mmatch {α : Type} (fuel : Nat) (r : RAst) (s : List Char)
    (caps : List (Option (List Char)))
    (k : List Char → List (Option (List Char)) → Option α) : Option α :=
  match fuel with
  | 0 => none
  | fuel + 1 =>
    match r with
    | .eps => k s caps
    | .lit c =>
      match s with
      | c' :: rest => if c' == c then k rest caps else none
      | [] => none
    | .anyChar =>
      match s with
      | c' :: rest => if c' != '\n' then k rest caps else none
      | [] => none
    | .dcls =>
      match s with
      | c' :: rest => if c'.isDigit then k rest caps else none
      | [] => none
    | .wcls =>
      match s with
      | c' :: rest => if isWordChar c' then k rest caps else none
      | [] => none
    | .scls =>
      match s with
      | c' :: rest => if isSpaceChar c' then k rest caps else none
      | [] => none
    | .cls neg items =>
      match s with
      | c' :: rest =>
        if (if neg then !(items.any (clsItMatch c')) else items.any (clsItMatch c')) then
          k rest caps
        else none
      | [] => none
    | .seq a b => mmatch fuel a s caps (fun s' caps' => mmatch fuel b s' caps' k)
    | .alt a b =>
      match mmatch fuel a s caps k with
      | some res => some res
      | none => mmatch fuel b s caps k
    | .rep a lo hi =>
      match lo with
      | l + 1 =>
        mmatch fuel a s caps (fun s' caps' =>
          mmatch fuel (.rep a l (hi.map (fun h => h - 1))) s' caps' k)
      | 0 =>
        match hi with
        | some 0 => k s caps
        | _ =>
          match mmatch fuel a s caps (fun s' caps' =>
                  if s'.length == s.length then none
                  else mmatch fuel (.rep a 0 (hi.map (fun h => h - 1))) s' caps' k) with
          | some res => some res
          | none => k s caps
    | .grp idx a =>
      mmatch fuel a s caps (fun s' caps' =>
        k s' (caps'.set (idx - 1) (some (s.take (s.length - s'.length)))))
    | .ngrp a => mmatch fuel a s caps k

/-- Size measure used to pick a recursion-depth bound for the matcher. -/
def astWeight : RAst → Nat
  | .seq a b => astWeight a + astWeight b + 1
  | .alt a b => astWeight a + astWeight b + 1
  | .rep a lo hi => (lo + hi.getD 1 + 2) * (astWeight a + 1) + 1
  | .grp _ a => astWeight a + 1
  | .ngrp a => astWeight a + 1
  | _ => 1

/-- Fuel that bounds the matcher's recursion depth on pattern `r` and input
`s` with a wide margin. -/
def reFuel (r : RAst) (s : List Char) : Nat :=
  (astWeight r + 2) * (s.length + 2) * 8 + 256

/-- `re.search`: try a match at each start position, leftmost first; on
success return the input remaining after the match and the captures. -/
def reSearchGo (fuel : Nat) (r : RAst) (ncaps : Nat) (s : List Char) :
    Option (List Char × List (Option (List Char))) :=
  match mmatch fuel r s (List.replicate ncaps none) (fun rest caps => some (rest, caps)) with
  | some rc => some rc
  | none =>
    match s with
    | [] => none
    | _ :: rest => reSearchGo fuel r ncaps rest

/-- `re.search` returning the captured groups (index 0 holds group 1). -/
def reSearchCaps (re : CompiledRe) (s : List Char) : Option (List (Option (List Char))) :=
  (reSearchGo (reFuel re.ast s) re.ast re.ncaps s).map (fun rc => rc.2)

/-- `bool(re.search(...))`. -/
def reSearchB (re : CompiledRe) (s : List Char) : Bool :=
  (reSearchCaps re s).isSome

/-- Expand a `re.sub` replacement template: `\1`..`\9` insert the matched
group, everything else is literal. -/
def expandTemplate (caps : List (Option (List Char))) : List Char → List Char
  | [] => []
  | '\\' :: c :: rest =>
    if c.isDigit then
      ((caps.getD (c.toNat - 49) none).getD []) ++ expandTemplate caps rest
    else '\\' :: c :: expandTemplate caps rest
  | c :: rest => c :: expandTemplate caps rest

/-- `re.sub`: replace every non-overlapping match, left to right; after an
empty match emit one character and continue (Python's behaviour).  `outer`
fuel is bounded by the input length. -/
def reSubGo (fuel : Nat) (r : RAst) (ncaps : Nat) (template : List Char) :
    Nat → List Char → List Char
  | 0, s => s
  | o + 1, s =>
    match mmatch fuel r s (List.replicate ncaps none) (fun rest caps => some (rest, caps)) with
    | some (rest, caps) =>
      if rest.length == s.length then
        match s with
        | [] => expandTemplate caps template
        | c :: s' => expandTemplate caps template ++ c :: reSubGo fuel r ncaps template o s'
      else expandTemplate caps template ++ reSubGo fuel r ncaps template o rest
    | none =>
      match s with
      | [] => []
      | c :: s' => c :: reSubGo fuel r ncaps template o s'

/-- `re.sub(pattern, template, s)` for a compiled pattern. -/
def reSubAll (re : CompiledRe) (template s : List Char) : List Char :=
  reSubGo (reFuel re.ast s) re.ast re.ncaps template (s.length + 1) s

/-! ### Regex parser (model of `re.compile`; `none` models a raised `re.error`) -/

/-- Numeric value of a digit string. -/
def digitsToNat (ds : List Char) : Nat :=
  ds.foldl (fun n c => 10 * n + (c.toNat - 48)) 0

/-- Parse the body of a `{...}` quantifier; `none` means the brace is not a
quantifier and stays a literal (as in Python). -/
def parseQuant (s : List Char) : Option (Nat × Option Nat × List Char) :=
  let ds := s.takeWhile Char.isDigit
  let s1 := s.dropWhile Char.isDigit
  if ds.isEmpty then none
  else
    let lo := digitsToNat ds
    match s1 with
    | '\x7d' :: rest => some (lo, some lo, rest)
    | ',' :: s2 =>
      let ds2 := s2.takeWhile Char.isDigit
      let s3 := s2.dropWhile Char.isDigit
      match s3 with
      | '\x7d' :: rest =>
        if ds2.isEmpty then some (lo, none, rest)
        else some (lo, some (digitsToNat ds2), rest)
      | _ => none
    | _ => none

/-- Attach a postfix quantifier to an atom if one follows. -/
def parsePostfix (a : RAst) (s : List Char) : RAst × List Char :=
  match s with
  | '*' :: rest => (.rep a 0 none, rest)
  | '+' :: rest => (.rep a 1 none, rest)
  | '?' :: rest => (.rep a 0 (some 1), rest)
  | '\x7b' :: rest =>
    match parseQuant rest with
    | some (lo, hi, rest') => (.rep a lo hi, rest')
    | none => (a, s)
  | _ => (a, s)

/-- Read one (possibly escaped) class member character. -/
def clsChar : List Char → Option (Char × List Char)
  | '\\' :: c :: rest => if c.isAlphanum then none else some (c, rest)
  | '\\' :: [] => none
  | ']' :: _ => none
  | c :: rest => some (c, rest)
  | [] => none

/-- Parse the items of a character class up to the closing `]`. -/
def parseClsItems (fuel : Nat) (s : List Char) : Option (List ClsIt × List Char) :=
  match fuel with
  | 0 => none
  | f + 1 =>
    match s with
    | [] => none
    | ']' :: rest => some ([], rest)
    | c :: rest =>
      match clsChar (c :: rest) with
      | none => none
      | some (ch, rest1) =>
        match rest1 with
        | '-' :: ']' :: rest2 => some ([ClsIt.single ch, ClsIt.single '-'], rest2)
        | '-' :: rest2 =>
          match clsChar rest2 with
          | none => none
          | some (ch2, rest3) =>
            (parseClsItems f rest3).map (fun p => (ClsIt.range ch ch2 :: p.1, p.2))
        | _ => (parseClsItems f rest1).map (fun p => (ClsIt.single ch :: p.1, p.2))

/-- Parse a character class after its opening `[`. -/
def parseCls (fuel : Nat) (s : List Char) : Option (Bool × List ClsIt × List Char) :=
  match s with
  | '^' :: rest => (parseClsItems fuel rest).map (fun p => (true, p.1, p.2))
  | _ => (parseClsItems fuel s).map (fun p => (false, p.1, p.2))

mutual

/-- Parse an alternation (`|`-separated sequence of sequences). -/
def parseAlt (fuel : Nat) (s : List Char) (gi : Nat) : Option (RAst × List Char × Nat) :=
  match fuel with
  | 0 => none
  | f + 1 =>
    match parseSeqAux f .eps s gi with
    | none => none
    | some (a, s1, g1) =>
      match s1 with
      | '|' :: rest =>
        match parseAlt f rest g1 with
        | none => none
        | some (b, s2, g2) => some (.alt a b, s2, g2)
      | _ => some (a, s1, g1)

/-- Parse a sequence of quantified atoms, stopping at `|`, `)` or the end. -/
def parseSeqAux (fuel : Nat) (acc : RAst) (s : List Char) (gi : Nat) :
    Option (RAst × List Char × Nat) :=
  match fuel with
  | 0 => none
  | f + 1 =>
    match s with
    | [] => some (acc, [], gi)
    | ')' :: _ => some (acc, s, gi)
    | '|' :: _ => some (acc, s, gi)
    | _ =>
      match parseAtom f s gi with
      | none => none
      | some (a, s1, g1) =>
        match parsePostfix a s1 with
        | (a', s2) => parseSeqAux f (.seq acc a') s2 g1

/-- Parse one atom.  Capturing groups are numbered in the order of their
opening parenthesis, as in Python. -/
def parseAtom (fuel : Nat) (s : List Char) (gi : Nat) : Option (RAst × List Char × Nat) :=
  match fuel with
  | 0 => none
  | f + 1 =>
    match s with
    | [] => none
    | '(' :: '?' :: ':' :: rest =>
      match parseAlt f rest gi with
      | some (a, ')' :: rest', g1) => some (.ngrp a, rest', g1)
      | _ => none
    | '(' :: '?' :: _ => none
    | '(' :: rest =>
      match parseAlt f rest (gi + 1) with
      | some (a, ')' :: rest', g1) => some (.grp (gi + 1) a, rest', g1)
      | _ => none
    | '[' :: rest =>
      match parseCls f rest with
      | some (neg, items, rest') => some (.cls neg items, rest', gi)
      | none => none
    | '.' :: rest => some (.anyChar, rest, gi)
    | '\\' :: c :: rest =>
      if c == 'd' then some (.dcls, rest, gi)
      else if c == 'w' then some (.wcls, rest, gi)
      else if c == 's' then some (.scls, rest, gi)
      else if c == 'n' then some (.lit '\n', rest, gi)
      else if c == 't' then some (.lit '\t', rest, gi)
      else if c == 'r' then some (.lit '\r', rest, gi)
      else if c.isAlphanum then none
      else some (.lit c, rest, gi)
    | '\\' :: [] => none
    | '*' :: _ => none
    | '+' :: _ => none
    | '?' :: _ => none
    | '^' :: _ => none
    | '$' :: _ => none
    | c :: rest => some (.lit c, rest, gi)

end

/-- `re.compile`: parse the whole pattern; any leftover input (for instance an
unmatched `)`) or unsupported construct fails like a raised `re.error`. -/
def parseRegex (s : List Char) : Option CompiledRe :=
  match parseAlt (8 * s.length + 64) s 0 with
  | some (a, [], gi) => some ⟨a, gi⟩
  | _ => none

/-! ### Constant regular expressions of the engine

These are the literal pattern strings from the source.  The `getD` fallback
of the pre-compiled constants is a never-matching class and is unreachable:
the parser succeeds on each constant (they contain only supported syntax). -/

/-- Customer-name pattern with its capturing group,
`([A-Z][a-z]+(?:\s+[A-Z][a-z]+)*)`. -/
def customerPatG : List Char := "([A-Z][a-z]+(?:\\s+[A-Z][a-z]+)*)".data

/-- Customer-name pattern without the group, as used by the
`extract_customer` matcher. -/
def customerPat : List Char := "[A-Z][a-z]+(?:\\s+[A-Z][a-z]+)*".data

/-- Date pattern without the group, as used by the `extract_date` matcher:
`\d{1,2}[/\-]\d{1,2}[/\-]\d{2,4}|\d{4}[/\-]\d{1,2}[/\-]\d{1,2}`. -/
def datePat : List Char :=
  "\\d\x7b1,2\x7d[/\\-]\\d\x7b1,2\x7d[/\\-]\\d\x7b2,4\x7d|\\d\x7b4\x7d[/\\-]\\d\x7b1,2\x7d[/\\-]\\d\x7b1,2\x7d".data

/-- Date pattern wrapped in one capturing group (the `{date}` token
substitution and the `extract_date` replacement). -/
def datePatG : List Char := '(' :: (datePat ++ [')'])

/-- The `{word}` token substitution, `(\w+)`. -/
def wordTokRe : List Char := "(\\w+)".data

/-- The `{text}` token substitution, `(.+)`. -/
def textTokRe : List Char := "(.+)".data

/-- Compiled ungrouped customer pattern (for matching). -/
def customerReB : CompiledRe := (parseRegex customerPat).getD ⟨.cls false [], 0⟩

/-- Compiled grouped customer pattern (for `$1` extraction). -/
def customerReG : CompiledRe := (parseRegex customerPatG).getD ⟨.cls false [], 0⟩

/-- Compiled ungrouped date pattern (for matching). -/
def dateReB : CompiledRe := (parseRegex datePat).getD ⟨.cls false [], 0⟩

/-- Compiled grouped date pattern (for `$1` extraction). -/
def dateReG : CompiledRe := (parseRegex datePatG).getD ⟨.cls false [], 0⟩

/-! ### Intuitive pattern compilation

The source runs five sequential `re.sub` passes over the pattern string, one
per token type, in the fixed order `{dN}`, `{customer}`, `{date}`, `{word}`,
`{text}`.  Each pass scans left to right and replaces every occurrence of its
own token.  `apply_intuitive_replacement` additionally appends one `Capture`
per replaced token — so the capture list is the concatenation of the per-pass
capture lists, batched by token type, not the left-to-right token order of
the original pattern. -/

/-- Recognize `\{d(\d+)\}` at the head of the input: returns the digit
characters of the count and the input after the token. -/
def rawDigitTokAt : List Char → Option (List Char × List Char)
  | '\x7b' :: 'd' :: rest =>
    let ds := rest.takeWhile Char.isDigit
    match rest.dropWhile Char.isDigit with
    | '\x7d' :: rest' => if ds.isEmpty then none else some (ds, rest')
    | _ => none
  | _ => none

/-- `{dN}` token with its count already converted by `int(...)`. -/
def digitTokAt (s : List Char) : Option (Nat × List Char) :=
  (rawDigitTokAt s).map (fun p => (digitsToNat p.1, p.2))

/-- Replacement text `(\d{...})` with the raw digit characters, as produced
by the template `r'(\\d{\1})'` in `convert_intuitive_pattern`. -/
def rawDigitGroupText (ds : List Char) : List Char :=
  '(' :: '\\' :: 'd' :: '\x7b' :: (ds ++ ['\x7d', ')'])

/-- Replacement text `(\d{n})` with the normalized count, as produced by the
f-string in `apply_intuitive_replacement`'s `replace_digits`. -/
def digitGroupText (n : Nat) : List Char :=
  '(' :: '\\' :: 'd' :: '\x7b' :: ((toString n).data ++ ['\x7d', ')'])

/-- The `{dN}` pass of `convert_intuitive_pattern` (raw digit text). -/
def passDigitsRaw : Nat → List Char → List Char
  | 0, s => s
  | f + 1, s =>
    match rawDigitTokAt s with
    | some (ds, rest') => rawDigitGroupText ds ++ passDigitsRaw f rest'
    | none =>
      match s with
      | [] => []
      | c :: rest => c :: passDigitsRaw f rest

/-- The `{dN}` pass of `apply_intuitive_replacement`: output text with
normalized counts. -/
def capTextDigits : Nat → List Char → List Char
  | 0, s => s
  | f + 1, s =>
    match digitTokAt s with
    | some (n, rest') => digitGroupText n ++ capTextDigits f rest'
    | none =>
      match s with
      | [] => []
      | c :: rest => c :: capTextDigits f rest

/-- The captures appended by the `{dN}` pass, in textual order. -/
def capListDigits : Nat → List Char → List Capture
  | 0, _ => []
  | f + 1, s =>
    match digitTokAt s with
    | some (n, rest') => Capture.digits n :: capListDigits f rest'
    | none =>
      match s with
      | [] => []
      | _ :: rest => capListDigits f rest

/-- Recognize a fixed token `{<tokRest>` at the head of the input (the
leading `{` plus `tokRest`, which ends in `}`). -/
def tokAt (tokRest : List Char) : List Char → Option (List Char)
  | '\x7b' :: rest =>
    if tokRest.isPrefixOf rest then some (rest.drop tokRest.length) else none
  | _ => none

/-- One fixed-token `re.sub` pass: output text. -/
def passTok (repl tokRest : List Char) : Nat → List Char → List Char
  | 0, s => s
  | f + 1, s =>
    match tokAt tokRest s with
    | some rest' => repl ++ passTok repl tokRest f rest'
    | none =>
      match s with
      | [] => []
      | c :: rest => c :: passTok repl tokRest f rest

/-- The captures appended by one fixed-token pass, in textual order. -/
def capListTok (cap : Capture) (tokRest : List Char) : Nat → List Char → List Capture
  | 0, _ => []
  | f + 1, s =>
    match tokAt tokRest s with
    | some rest' => cap :: capListTok cap tokRest f rest'
    | none =>
      match s with
      | [] => []
      | _ :: rest => capListTok cap tokRest f rest

/-- Tail (after the `{`) of the `{customer}` token. -/
def custTok : List Char := "customer\x7d".data

/-- Tail of the `{date}` token. -/
def dateTok : List Char := "date\x7d".data

/-- Tail of the `{word}` token. -/
def wordTok : List Char := "word\x7d".data

/-- Tail of the `{text}` token. -/
def textTok : List Char := "text\x7d".data

/-- Validity of a `re.sub` *string* replacement template on Python ≥ 3.7:
group references (`\1`..`\9`, `\g`), the character escapes
`\a \b \f \n \r \t \v`, an escaped backslash and escapes of non-letters are
accepted; any other escaped ASCII letter is a bad escape.  The template is
parsed eagerly, before any match is attempted, so a bad escape raises
`re.error` on every call of that `re.sub` — whether or not the token occurs
in the input. -/
def templateOk : List Char → Bool
  | [] => true
  | '\\' :: [] => false
  | '\\' :: c :: rest =>
    (c == '\\' || c.isDigit || c == 'g' || c == 'a' || c == 'b' || c == 'f'
      || c == 'n' || c == 'r' || c == 't' || c == 'v' || !c.isAlpha)
      && templateOk rest
  | _ :: rest => templateOk rest

/-- The raw text of the `{dN}` pass's replacement template, `r'(\\d{\1})'`
(characters `(`, `\`, `\`, `d`, `\x7b`, `\`, `1`, `\x7d`, `)`).  Its escapes
(`\\` and the group reference `\1`) are valid template escapes. -/
def rawDigitTemplate : List Char := "(\\\\d\x7b\\1\x7d)".data

/-- `convert_intuitive_pattern`: the five `re.sub` passes of the match path
use *string* replacement templates (unlike `apply_intuitive_replacement`,
whose passes use callables).  Each pass first parses its template; on every
supported Python (≥ 3.7) the `{customer}` template
`([A-Z][a-z]+(?:\s+[A-Z][a-z]+)*)` contains the bad escape `\s` (and the
`{date}` and `{word}` templates contain `\d` and `\w`), so the customer
pass raises `re.error` on every call and the function never returns a
compiled pattern.  The final `re.compile` of the assembled regex is likewise
unguarded; `none` models the raised `re.error` in either place. -/
def convert_intuitive_pattern (p : List Char) : Option CompiledRe :=
  if !templateOk rawDigitTemplate then none
  else
    let p1 := passDigitsRaw (p.length + 1) p
    if !templateOk customerPatG then none
    else
      let p2 := passTok customerPatG custTok (p1.length + 1) p1
      if !templateOk datePatG then none
      else
        let p3 := passTok datePatG dateTok (p2.length + 1) p2
        if !templateOk wordTokRe then none
        else
          let p4 := passTok wordTokRe wordTok (p3.length + 1) p3
          if !templateOk textTokRe then none
          else parseRegex (passTok textTokRe textTok (p4.length + 1) p4)

/-- The regex text and capture list built by `apply_intuitive_replacement`'s
five passes.  The capture list concatenates the per-pass lists in pass order
(`{dN}` first, then `{customer}`, `{date}`, `{word}`, `{text}`). -/
def intuitiveCompile (p : List Char) : List Char × List Capture :=
  let t1 := capTextDigits (p.length + 1) p
  let t2 := passTok customerPatG custTok (t1.length + 1) t1
  let t3 := passTok datePatG dateTok (t2.length + 1) t2
  let t4 := passTok wordTokRe wordTok (t3.length + 1) t3
  let t5 := passTok textTokRe textTok (t4.length + 1) t4
  (t5,
    capListDigits (p.length + 1) p
      ++ (capListTok Capture.customer custTok (t1.length + 1) t1
        ++ (capListTok Capture.date dateTok (t2.length + 1) t2
          ++ (capListTok Capture.word wordTok (t3.length + 1) t3
            ++ capListTok Capture.text textTok (t4.length + 1) t4))))

/-- The placeholder each capture substitutes in the replacement template:
`{n}` for a digit capture (normalized count), `{customer}`, `{date}`,
`{word}`, `{text}` otherwise. -/
def capKey : Capture → List Char
  | .digits n => '\x7b' :: ((toString n).data ++ ['\x7d'])
  | .customer => "\x7bcustomer\x7d".data
  | .date => "\x7bdate\x7d".data
  | .word => "\x7bword\x7d".data
  | .text => "\x7btext\x7d".data

/-- The substitution loop of `apply_intuitive_replacement`: capture `i`
(1-based group index) replaces every occurrence of its placeholder in the
running result with `match.group(i)`.  (The `re.sub` used in the source has a
fully escaped literal pattern, so it is plain text replacement; the group
values substituted here never contain backslashes.) -/
def applyCaps (caps : List (Option (List Char))) : List Capture → Nat → List Char → List Char
  | [], _, result => result
  | cap :: rest, i, result =>
    applyCaps caps rest (i + 1)
      (pyReplace result (capKey cap) ((caps.getD (i - 1) none).getD []))

/-- `apply_intuitive_replacement(name, pattern, replacement)`.  The body's
`try` covers compilation and matching, so a malformed pattern or a failed
search returns `name` unchanged. -/
def apply_intuitive_replacement (name pattern replacement : String) : String :=
  match intuitiveCompile pattern.data with
  | (txt, captures) =>
    match parseRegex txt with
    | none => name
    | some re =>
      match reSearchCaps re name.data with
      | none => name
      | some caps => (applyCaps caps captures 1 replacement.data).asString

/-! ### The scanner script's engine
(`src/PythonScriptTools/get_customer_job_structure.py`, nested functions of
`scan_customer_folder`). -/

namespace scanner

/-- `matches_condition(name, pattern, condition_type)` (scanner, lines
72-109).  The `regex` branch catches `re.error` and yields `False`; the
`intuitive` branch calls `convert_intuitive_pattern` with no handler, so
the `re.error` that function raises (on Python ≥ 3.7, on every call, from
its `{customer}` pass's template) escapes (modelled by `PRes.exn`). -/
def matches_condition (name pattern ctype : String) : PRes Bool :=
  if ctype = "contains" then .ok (isSubstring pattern.data name.data)
  else if ctype = "startswith" then .ok (pattern.data.isPrefixOf name.data)
  else if ctype = "endswith" then .ok (pattern.data.isSuffixOf name.data)
  else if ctype = "equals" then .ok (name == pattern)
  else if ctype = "regex" then
    .ok (match parseRegex pattern.data with
         | some re => reSearchB re name.data
         | none => false)
  else if ctype = "extract_job_number" then .ok (searchFiveDigits name.data)
  else if ctype = "extract_customer" then .ok (reSearchB customerReB name.data)
  else if ctype = "extract_date" then .ok (reSearchB dateReB name.data)
  else if ctype = "intuitive" then
    match convert_intuitive_pattern pattern.data with
    | some re => .ok (reSearchB re name.data)
    | none => .exn ReErr.patternErr
  else if ctype = "not_contains" then .ok (!(isSubstring pattern.data name.data))
  else if ctype = "not_startswith" then .ok (!(pattern.data.isPrefixOf name.data))
  else if ctype = "not_endswith" then .ok (!(pattern.data.isSuffixOf name.data))
  else if ctype = "not_equals" then .ok (!(name == pattern))
  else .ok (isSubstring pattern.data name.data)

/-- The `for chain in chains` loop of `matches_condition_with_chains`
(scanner, lines 61-68): each link is matched independently and combined with
the running result per its operator (`AND` when absent; any other operator
string leaves the result unchanged, as neither branch of the `if/elif`
fires). -/
def chainsLoop (name : String) (result : Bool) : List ChainLink → PRes Bool
  | [] => .ok result
  | ch :: rest =>
    match matches_condition name ch.pattern ch.ctype with
    | .exn e => .exn e
    | .ok m =>
      chainsLoop name
        (if ch.operator.getD "AND" = "AND" then result && m
         else if ch.operator.getD "AND" = "OR" then result || m
         else result) rest

/-- `matches_condition_with_chains` (scanner, lines 49-70). -/
def matches_condition_with_chains (name pattern ctype : String)
    (chains : List ChainLink) : PRes Bool :=
  match matches_condition name pattern ctype with
  | .exn e => .exn e
  | .ok mainMatch =>
    if chains.isEmpty then .ok mainMatch else chainsLoop name mainMatch chains

/-- `apply_replacement(name, pattern, replacement, condition_type)` (scanner,
lines 111-150). -/
def apply_replacement (name pattern replacement ctype : String) : String :=
  if ctype = "contains" then pyReplaceS name pattern replacement
  else if ctype = "startswith" then
    if pattern.data.isPrefixOf name.data then pyReplaceS name pattern replacement else name
  else if ctype = "endswith" then
    if pattern.data.isSuffixOf name.data then pyReplaceS name pattern replacement else name
  else if ctype = "equals" then replacement
  else if ctype = "regex" then
    match parseRegex pattern.data with
    | some re => (reSubAll re replacement.data name.data).asString
    | none => name
  else if ctype = "extract_job_number" then
    match firstFiveDigits name.data with
    | some ds => (pyReplace replacement.data "$1".data ds).asString
    | none => name
  else if ctype = "extract_customer" then
    match reSearchCaps customerReG name.data with
    | some caps => (pyReplace replacement.data "$1".data ((caps.getD 0 none).getD [])).asString
    | none => name
  else if ctype = "extract_date" then
    match reSearchCaps dateReG name.data with
    | some caps => (pyReplace replacement.data "$1".data ((caps.getD 0 none).getD [])).asString
    | none => name
  else if ctype = "intuitive" then apply_intuitive_replacement name pattern replacement
  else if ctype = "not_contains" ∨ ctype = "not_startswith" ∨ ctype = "not_endswith"
          ∨ ctype = "not_equals" then replacement
  else pyReplaceS name pattern replacement

/-- `apply_naming_conditions(name, conditions)` (scanner, lines 31-47):
iterate in order, skip disabled conditions, return the replacement of the
first condition whose chain evaluation is true, else the name unchanged. -/
def apply_naming_conditions (name : String) : List NamingCondition → PRes String
  | [] => .ok name
  | c :: rest =>
    if c.enabled then
      match matches_condition_with_chains name c.pattern c.ctype c.chains with
      | .exn e => .exn e
      | .ok true => .ok (apply_replacement name c.pattern c.replacement c.ctype)
      | .ok false => apply_naming_conditions name rest
    else apply_naming_conditions name rest

end scanner

/-! ### The database module's engine
(`src/database.py`, nested functions of `apply_naming_conditions_to_structure`). -/

namespace db

/-- `matches_condition` (database, lines 296-322).  Same branches as the
scanner's matcher except: the `intuitive` branch comes before the
`extract_*` branches, and there are no `not_*` branches — those kinds reach
the final `else` and fall back to the substring test. -/
def matches_condition (name pattern ctype : String) : PRes Bool :=
  if ctype = "contains" then .ok (isSubstring pattern.data name.data)
  else if ctype = "startswith" then .ok (pattern.data.isPrefixOf name.data)
  else if ctype = "endswith" then .ok (pattern.data.isSuffixOf name.data)
  else if ctype = "equals" then .ok (name == pattern)
  else if ctype = "regex" then
    .ok (match parseRegex pattern.data with
         | some re => reSearchB re name.data
         | none => false)
  else if ctype = "intuitive" then
    match convert_intuitive_pattern pattern.data with
    | some re => .ok (reSearchB re name.data)
    | none => .exn ReErr.patternErr
  else if ctype = "extract_job_number" then .ok (searchFiveDigits name.data)
  else if ctype = "extract_customer" then .ok (reSearchB customerReB name.data)
  else if ctype = "extract_date" then .ok (reSearchB dateReB name.data)
  else .ok (isSubstring pattern.data name.data)

/-- The chain loop of the database's `matches_condition_with_chains`
(database, lines 285-292); identical text to the scanner's loop but calling
this module's matcher. -/
def chainsLoop (name : String) (result : Bool) : List ChainLink → PRes Bool
  | [] => .ok result
  | ch :: rest =>
    match matches_condition name ch.pattern ch.ctype with
    | .exn e => .exn e
    | .ok m =>
      chainsLoop name
        (if ch.operator.getD "AND" = "AND" then result && m
         else if ch.operator.getD "AND" = "OR" then result || m
         else result) rest

/-- `matches_condition_with_chains` (database, lines 273-294). -/
def matches_condition_with_chains (name pattern ctype : String)
    (chains : List ChainLink) : PRes Bool :=
  match matches_condition name pattern ctype with
  | .exn e => .exn e
  | .ok mainMatch =>
    if chains.isEmpty then .ok mainMatch else chainsLoop name mainMatch chains

/-- `apply_replacement` (database, lines 334-367): like the scanner's but
with `intuitive` ahead of the `extract_*` branches and no `not_*` branch
(those kinds fall into the final `else` substring replacement). -/
def apply_replacement (name pattern replacement ctype : String) : String :=
  if ctype = "contains" then pyReplaceS name pattern replacement
  else if ctype = "startswith" then
    if pattern.data.isPrefixOf name.data then pyReplaceS name pattern replacement else name
  else if ctype = "endswith" then
    if pattern.data.isSuffixOf name.data then pyReplaceS name pattern replacement else name
  else if ctype = "equals" then replacement
  else if ctype = "regex" then
    match parseRegex pattern.data with
    | some re => (reSubAll re replacement.data name.data).asString
    | none => name
  else if ctype = "intuitive" then apply_intuitive_replacement name pattern replacement
  else if ctype = "extract_job_number" then
    match firstFiveDigits name.data with
    | some ds => (pyReplace replacement.data "$1".data ds).asString
    | none => name
  else if ctype = "extract_customer" then
    match reSearchCaps customerReG name.data with
    | some caps => (pyReplace replacement.data "$1".data ((caps.getD 0 none).getD [])).asString
    | none => name
  else if ctype = "extract_date" then
    match reSearchCaps dateReG name.data with
    | some caps => (pyReplace replacement.data "$1".data ((caps.getD 0 none).getD [])).asString
    | none => name
  else pyReplaceS name pattern replacement

/-- `apply_condition_to_item(item, condition)` (database, lines 260-271):
the replacement of the condition if its chain evaluation on `item['name']`
is true, else the name unchanged. -/
def apply_condition_to_item (item : Item) (c : NamingCondition) : PRes String :=
  match matches_condition_with_chains item.name c.pattern c.ctype c.chains with
  | .exn e => .exn e
  | .ok true => .ok (apply_replacement item.name c.pattern c.replacement c.ctype)
  | .ok false => .ok item.name

/-- The inner `for condition in conditions` loop of the bulk-apply path
(database, lines 424-428): every enabled condition is applied to the item's
original name, and the alias is overwritten only when the computed value
differs from the name. -/
def applyCondsLoop (item : Item) : List NamingCondition → PRes Item
  | [] => .ok item
  | c :: rest =>
    if c.enabled then
      match apply_condition_to_item item c with
      | .exn e => .exn e
      | .ok newAlias =>
        applyCondsLoop (if newAlias ≠ item.name then ⟨item.name, newAlias⟩ else item) rest
    else applyCondsLoop item rest

/-- `apply_naming_conditions_to_structure(structure_data, conditions)`
(database, lines 256-430, outer loop at 422-430). -/
def apply_naming_conditions_to_structure :
    List Item → List NamingCondition → PRes (List Item)
  | [], _ => .ok []
  | it :: rest, conds =>
    match applyCondsLoop it conds with
    | .exn e => .exn e
    | .ok it' =>
      match apply_naming_conditions_to_structure rest conds with
      | .exn e => .exn e
      | .ok rest' => .ok (it' :: rest')

end db

/-! ### Spec-side definitions

Definitions in this section follow the wording of the specification (they are
compared against the code-side definitions above; they are not transcribed
from the source). -/

/-- Lengths of the maximal digit runs of a string, left to right (`acc` is
the length of the run in progress). -/
def digitRunList : List Char → Nat → List Nat
  | [], acc => if acc = 0 then [] else [acc]
  | c :: rest, acc =>
    if c.isDigit then digitRunList rest (acc + 1)
    else if acc = 0 then digitRunList rest 0
    else acc :: digitRunList rest 0

/-- The spec's reading of `extract_job_number`: the name contains a maximal
digit run of length exactly 5. -/
def hasRunOfExactlyFive (s : String) : Bool :=
  (digitRunList s.data 0).contains 5

/-- One step of the chain fold described by the spec (and computed by the
loop body at scanner lines 63-68): combine the running result with the
link's own match verdict according to its operator, `AND` when absent. -/
def chainStep (r : Bool) (ch : ChainLink) (m : Bool) : Bool :=
  if ch.operator.getD "AND" = "AND" then r && m
  else if ch.operator.getD "AND" = "OR" then r || m
  else r

/-- One step of the bulk-apply alias fold: an enabled condition whose chain
evaluation is true overwrites the alias with its replacement, except when
the replacement equals the item's original name. -/
def bulkStep (name al : String) (c : NamingCondition) : String :=
  if c.enabled then
    match db.matches_condition_with_chains name c.pattern c.ctype c.chains with
    | .ok true =>
      if db.apply_replacement name c.pattern c.replacement c.ctype = name then al
      else db.apply_replacement name c.pattern c.replacement c.ctype
    | _ => al
  else al

/-! ### Supporting lemmas -/

/-- `\d{5}` matches at the head of `s` exactly when `s` starts with five
digits. -/
theorem fiveDigitsHere_iff (s : List Char) :
    fiveDigitsHere s = true ↔
      ∃ ds suf, s = ds ++ suf ∧ ds.length = 5 ∧ ∀ c ∈ ds, c.isDigit = true := by
  constructor
  · intro h
    rcases s with _ | ⟨c1, _ | ⟨c2, _ | ⟨c3, _ | ⟨c4, _ | ⟨c5, rest⟩⟩⟩⟩⟩
    case cons.cons.cons.cons.cons =>
      simp only [fiveDigitsHere, Bool.and_eq_true] at h
      obtain ⟨⟨⟨⟨h1, h2⟩, h3⟩, h4⟩, h5⟩ := h
      refine ⟨[c1, c2, c3, c4, c5], rest, rfl, rfl, ?_⟩
      intro c hc
      simp only [List.mem_cons, List.not_mem_nil, or_false] at hc
      rcases hc with rfl | rfl | rfl | rfl | rfl <;> assumption
    all_goals simp [fiveDigitsHere] at h
  · rintro ⟨ds, suf, rfl, h5, hall⟩
    rcases ds with _ | ⟨d1, _ | ⟨d2, _ | ⟨d3, _ | ⟨d4, _ | ⟨d5, ds'⟩⟩⟩⟩⟩ <;> simp at h5
    subst h5
    simp only [List.cons_append, List.nil_append, fiveDigitsHere, Bool.and_eq_true]
    refine ⟨⟨⟨⟨?_, ?_⟩, ?_⟩, ?_⟩, ?_⟩ <;> apply hall <;> simp

/-- `re.search(r'\d{5}', s)` succeeds exactly when `s` contains five
consecutive digits anywhere. -/
theorem searchFiveDigits_iff (s : List Char) :
    searchFiveDigits s = true ↔
      ∃ pre ds suf, s = pre ++ ds ++ suf ∧ ds.length = 5 ∧ ∀ c ∈ ds, c.isDigit = true := by
  induction s with
  | nil =>
    constructor
    · intro h
      simp [searchFiveDigits] at h
    · rintro ⟨pre, ds, suf, h, h5, -⟩
      have hlen := congrArg List.length h
      simp at hlen
      omega
  | cons c rest ih =>
    simp only [searchFiveDigits, Bool.or_eq_true]
    constructor
    · rintro (h | h)
      · obtain ⟨ds, suf, hsplit, h5, hall⟩ := (fiveDigitsHere_iff _).mp h
        exact ⟨[], ds, suf, by simpa using hsplit, h5, hall⟩
      · obtain ⟨pre, ds, suf, hsplit, h5, hall⟩ := ih.mp h
        exact ⟨c :: pre, ds, suf, by simp [hsplit], h5, hall⟩
    · rintro ⟨pre, ds, suf, hsplit, h5, hall⟩
      rcases pre with _ | ⟨p, pre'⟩
      · exact Or.inl ((fiveDigitsHere_iff _).mpr ⟨ds, suf, by simpa using hsplit, h5, hall⟩)
      · refine Or.inr (ih.mpr ⟨pre', ds, suf, ?_, h5, hall⟩)
        simp only [List.cons_append, List.cons.injEq] at hsplit
        exact hsplit.2

/-! ### Claims -/

/-- Claim C3 (code_bug evidence).  The scanner's `matches_condition` on an
`intuitive` condition whose pattern compiles to a malformed regex does not
return `false`: nothing in `convert_intuitive_pattern`'s match path is
guarded by a `try/except` (unlike the `regex` branch), so the `re.error` —
raised on Python ≥ 3.7 already by the `{customer}` pass's eagerly parsed
string template, and otherwise by the unguarded `re.compile` of the
malformed pattern — escapes `matches_condition` and propagates out of
`apply_naming_conditions` to the caller. -/
theorem intuitive_invalid_pattern_raises :
    scanner.matches_condition "Widget-A" "(unbalanced" "intuitive" = PRes.exn ReErr.patternErr
  ∧ scanner.apply_naming_conditions "Widget-A"
      [⟨"intuitive", "(unbalanced", "x", [], true⟩] = PRes.exn ReErr.patternErr := by
  constructor <;> rfl

/-- Claim C4, amended.  `extract_job_number` matches exactly the names that
contain five consecutive digits somewhere — i.e. a digit run of length at
least 5, not exactly 5: `re.search(r'\d{5}', name)` also succeeds inside a
longer run. -/
theorem extract_job_number_matches_iff (name pattern : String) :
    scanner.matches_condition name pattern "extract_job_number" = PRes.ok true ↔
      ∃ pre ds suf, name.data = pre ++ ds ++ suf ∧ ds.length = 5 ∧ ∀ c ∈ ds, c.isDigit = true := by
  have h : scanner.matches_condition name pattern "extract_job_number"
      = PRes.ok (searchFiveDigits name.data) := rfl
  rw [h]
  simp only [PRes.ok.injEq]
  exact searchFiveDigits_iff name.data

/-- Claim C4, counterexample.  `"123456"` has a single maximal digit run, of
length 6 — so it contains no run of exactly 5 digits — yet the
`extract_job_number` matcher returns true on it. -/
theorem extract_job_number_not_exact_run :
    scanner.matches_condition "123456" "" "extract_job_number" = PRes.ok true
  ∧ hasRunOfExactlyFive "123456" = false := by
  constructor <;> rfl

/-- Claim C7 (code_bug evidence).  The literal intuitive scenario raises
instead of returning `35394_rev1`: the match step calls
`convert_intuitive_pattern`, whose `{customer}` pass passes a string
replacement template containing the bad escape `\s` to `re.sub`; on every
supported Python (≥ 3.7) the template is parsed eagerly — the pattern has no
`{customer}` token, but that does not matter — and `re.error` propagates out
of `apply_naming_conditions`.  The second conjunct shows the replacement
engine (whose passes use callable replacements and are unaffected) would
produce exactly the alias the claim describes, so the claim matches the
intent and the match path's template handling is the slip. -/
theorem intuitive_roundtrip_raises :
    scanner.apply_naming_conditions "35394-R1"
      [⟨"intuitive", "\x7bd5\x7d-R\x7bword\x7d", "\x7b5\x7d_rev\x7bword\x7d", [], true⟩]
      = PRes.exn ReErr.patternErr
  ∧ apply_intuitive_replacement "35394-R1" "\x7bd5\x7d-R\x7bword\x7d" "\x7b5\x7d_rev\x7bword\x7d"
      = "35394_rev1" := by
  constructor <;> rfl

/-- Claim C9.  Each `not_*` kind matches exactly when the corresponding
positive test fails, its replacement is always the fixed `replacement`
string, and the literal `not_equals` scenario rewrites `foo` to `renamed`. -/
theorem not_kinds_negate_and_replace (name pattern replacement : String) :
    scanner.matches_condition name pattern "not_contains"
      = (scanner.matches_condition name pattern "contains").map (fun b => !b)
  ∧ scanner.matches_condition name pattern "not_startswith"
      = (scanner.matches_condition name pattern "startswith").map (fun b => !b)
  ∧ scanner.matches_condition name pattern "not_endswith"
      = (scanner.matches_condition name pattern "endswith").map (fun b => !b)
  ∧ scanner.matches_condition name pattern "not_equals"
      = (scanner.matches_condition name pattern "equals").map (fun b => !b)
  ∧ scanner.apply_replacement name pattern replacement "not_contains" = replacement
  ∧ scanner.apply_replacement name pattern replacement "not_startswith" = replacement
  ∧ scanner.apply_replacement name pattern replacement "not_endswith" = replacement
  ∧ scanner.apply_replacement name pattern replacement "not_equals" = replacement
  ∧ scanner.apply_naming_conditions "foo" [⟨"not_equals", "bar", "renamed", [], true⟩]
      = PRes.ok "renamed" := by
  exact ⟨rfl, rfl, rfl, rfl, rfl, rfl, rfl, rfl, rfl⟩

/-- Every capture appended by the `{dN}` pass is a digit capture. -/
theorem capListDigits_all (f : Nat) (p : List Char) :
    ∀ x ∈ capListDigits f p, ∃ n, x = Capture.digits n := by
  induction f generalizing p with
  | zero =>
    intro x hx
    simp [capListDigits] at hx
  | succ f ih =>
    intro x hx
    cases hd : digitTokAt p with
    | some v =>
      obtain ⟨n, rest'⟩ := v
      simp only [capListDigits, hd] at hx
      rcases List.mem_cons.mp hx with rfl | hmem
      · exact ⟨n, rfl⟩
      · exact ih rest' x hmem
    | none =>
      simp only [capListDigits, hd] at hx
      rcases p with - | ⟨c, rest⟩
      · simp at hx
      · exact ih rest x hx

/-- Every capture appended by a fixed-token pass is that pass's capture. -/
theorem capListTok_all (cap : Capture) (tokRest : List Char) (f : Nat) (s : List Char) :
    ∀ x ∈ capListTok cap tokRest f s, x = cap := by
  induction f generalizing s with
  | zero =>
    intro x hx
    simp [capListTok] at hx
  | succ f ih =>
    intro x hx
    cases hd : tokAt tokRest s with
    | some rest' =>
      simp only [capListTok, hd] at hx
      rcases List.mem_cons.mp hx with rfl | hmem
      · rfl
      · exact ih rest' x hmem
    | none =>
      simp only [capListTok, hd] at hx
      rcases s with - | ⟨c, rest⟩
      · simp at hx
      · exact ih rest x hx

/-- Claim C1, amended.  The capture list produced while compiling an
intuitive pattern is batched by token type — all `{dN}` captures (in their
textual order) first, then all `{customer}`, `{date}`, `{word}`, `{text}`
captures — because the five `re.sub` passes run one token type at a time
and each appends to the shared list.  Replacement then pairs capture `i`
with regex group `i+1`, so placeholder/group alignment holds only for
patterns whose tokens occur in that type order. -/
theorem intuitive_captures_batched_by_type (p : List Char) :
    ∃ ds cs das ws ts,
      (intuitiveCompile p).2 = ds ++ (cs ++ (das ++ (ws ++ ts)))
      ∧ (∀ x ∈ ds, ∃ n, x = Capture.digits n)
      ∧ (∀ x ∈ cs, x = Capture.customer)
      ∧ (∀ x ∈ das, x = Capture.date)
      ∧ (∀ x ∈ ws, x = Capture.word)
      ∧ (∀ x ∈ ts, x = Capture.text) :=
  ⟨_, _, _, _, _, rfl, capListDigits_all _ _, capListTok_all _ _ _ _,
    capListTok_all _ _ _ _, capListTok_all _ _ _ _, capListTok_all _ _ _ _⟩

/-- Claim C1, counterexample.  For the pattern `{word}-{d5}` the `{word}`
token occurs first in the text, but the capture list holds the digit capture
first; consequently the replacement pairs `{5}` with the word group's text
and `{word}` with the digit group's text, yielding `12345_abc` instead of
the left-to-right `abc_12345`. -/
theorem intuitive_capture_order_counterexample :
    (intuitiveCompile "\x7bword\x7d-\x7bd5\x7d".data).2 = [Capture.digits 5, Capture.word]
  ∧ [Capture.digits 5, Capture.word] ≠ [Capture.word, Capture.digits 5]
  ∧ apply_intuitive_replacement "abc-12345" "\x7bword\x7d-\x7bd5\x7d" "\x7bword\x7d_\x7b5\x7d"
      = "12345_abc"
  ∧ ("12345_abc" : String) ≠ "abc_12345" := by
  exact ⟨rfl, by decide, rfl, by decide⟩

/-- Claim C8.  An enabled `regex` condition with an invalid pattern: the
matcher's `try/except re.error` yields `false`, the replacement's yields the
name unchanged, and `apply_naming_conditions` therefore returns the input
name without raising. -/
theorem malformed_regex_safe (name pattern replacement : String)
    (h : parseRegex pattern.data = none) :
    scanner.matches_condition name pattern "regex" = PRes.ok false
  ∧ scanner.apply_replacement name pattern replacement "regex" = name
  ∧ scanner.apply_naming_conditions name [⟨"regex", pattern, replacement, [], true⟩]
      = PRes.ok name := by
  have hm : scanner.matches_condition name pattern "regex"
      = PRes.ok (match parseRegex pattern.data with
                 | some re => reSearchB re name.data
                 | none => false) := rfl
  rw [h] at hm
  have hr : scanner.apply_replacement name pattern replacement "regex"
      = (match parseRegex pattern.data with
         | some re => (reSubAll re replacement.data name.data).asString
         | none => name) := rfl
  rw [h] at hr
  have hcc : scanner.matches_condition_with_chains name pattern "regex" []
      = scanner.matches_condition name pattern "regex" := by
    cases h' : scanner.matches_condition name pattern "regex" <;>
      simp [scanner.matches_condition_with_chains, h']
  have hc : scanner.apply_naming_conditions name [⟨"regex", pattern, replacement, [], true⟩]
      = match scanner.matches_condition_with_chains name pattern "regex" [] with
        | .exn e => .exn e
        | .ok true => .ok (scanner.apply_replacement name pattern replacement "regex")
        | .ok false => scanner.apply_naming_conditions name [] := rfl
  refine ⟨hm, hr, ?_⟩
  rw [hc, hcc, hm]
  rfl

/-- Claim C8, witness: the spec's literal malformed-regex scenario. -/
theorem malformed_regex_safe_witness :
    parseRegex "(unclosed".data = none
  ∧ scanner.apply_naming_conditions "anything" [⟨"regex", "(unclosed", "x", [], true⟩]
      = PRes.ok "anything" :=
  ⟨rfl, (malformed_regex_safe "anything" "(unclosed" "x" rfl).2.2⟩

/-- Claim C2.  `apply_naming_conditions` iterates in order, skips disabled
conditions regardless of their pattern, returns the replacement of the first
enabled condition whose chain evaluation is true without consulting later
conditions, and returns the name unchanged on an empty list or when no
enabled condition matches. -/
theorem first_match_wins (name : String) (c : NamingCondition) (rest : List NamingCondition) :
    scanner.apply_naming_conditions name [] = PRes.ok name
  ∧ (c.enabled = false →
      scanner.apply_naming_conditions name (c :: rest)
        = scanner.apply_naming_conditions name rest)
  ∧ (c.enabled = true →
      scanner.matches_condition_with_chains name c.pattern c.ctype c.chains = PRes.ok true →
      scanner.apply_naming_conditions name (c :: rest)
        = PRes.ok (scanner.apply_replacement name c.pattern c.replacement c.ctype))
  ∧ (c.enabled = true →
      scanner.matches_condition_with_chains name c.pattern c.ctype c.chains = PRes.ok false →
      scanner.apply_naming_conditions name (c :: rest)
        = scanner.apply_naming_conditions name rest)
  ∧ (∀ conds : List NamingCondition,
      (∀ d ∈ conds, d.enabled = true →
        scanner.matches_condition_with_chains name d.pattern d.ctype d.chains = PRes.ok false) →
      scanner.apply_naming_conditions name conds = PRes.ok name) := by
  refine ⟨rfl, ?_, ?_, ?_, ?_⟩
  · intro he
    simp [scanner.apply_naming_conditions, he]
  · intro he hm
    simp [scanner.apply_naming_conditions, he, hm]
  · intro he hm
    simp [scanner.apply_naming_conditions, he, hm]
  · intro conds
    induction conds with
    | nil => intro _; rfl
    | cons d ds ih =>
      intro hall
      by_cases hd : d.enabled = true
      · have hm := hall d (by simp) hd
        simp only [scanner.apply_naming_conditions, hd, if_true, hm]
        exact ih (fun d' hd' => hall d' (by simp [hd']))
      · have hd' : d.enabled = false := by
          cases hde : d.enabled
          · rfl
          · exact absurd hde hd
        simp only [scanner.apply_naming_conditions, hd', Bool.false_eq_true, if_false]
        exact ih (fun d' hmem => hall d' (by simp [hmem]))

/-- Claim C2, witness: with two enabled matching conditions the first one's
replacement is returned (the second is never consulted), and a disabled
condition is skipped. -/
theorem first_match_wins_witness :
    scanner.apply_naming_conditions "ab"
      [⟨"contains", "a", "X", [], true⟩, ⟨"contains", "b", "Y", [], true⟩] = PRes.ok "Xb"
  ∧ scanner.apply_naming_conditions "cd" [⟨"contains", "c", "X", [], false⟩] = PRes.ok "cd" := by
  constructor
  · have h := (first_match_wins "ab" ⟨"contains", "a", "X", [], true⟩
      [⟨"contains", "b", "Y", [], true⟩]).2.2.1 rfl (by decide)
    rw [h]
    rfl
  · have h0 := (first_match_wins "cd" ⟨"contains", "c", "X", [], false⟩ []).2.1 rfl
    rw [h0]
    exact (first_match_wins "cd" ⟨"contains", "c", "X", [], false⟩ []).1

/-- The chain loop equals a left fold of `chainStep` over the links paired
with their own match verdicts, provided no link's matcher raises. -/
theorem chainsLoop_eq_foldl (name : String) {chains : List ChainLink} {bs : List Bool}
    (h : List.Forall₂ (fun ch m =>
        scanner.matches_condition name ch.pattern ch.ctype = PRes.ok m) chains bs) :
    ∀ b : Bool, scanner.chainsLoop name b chains
      = PRes.ok ((chains.zip bs).foldl (fun r p => chainStep r p.1 p.2) b) := by
  induction h with
  | nil => intro b; rfl
  | cons hcm hrest ih =>
    intro b
    rename_i ch m chs ms
    simp only [scanner.chainsLoop, hcm, List.zip_cons_cons, List.foldl_cons]
    exact ih (chainStep b ch m)

/-- Claim C6.  Chain evaluation is a left fold: the result starts at the
primary match verdict and is combined, in list order, with each link's
independent match verdict per the link's operator (`AND` when the operator
field is absent); an empty chain list yields exactly the primary verdict. -/
theorem chain_evaluation_is_left_fold (name pattern ctype : String)
    (chains : List ChainLink) (b : Bool) (bs : List Bool)
    (h1 : scanner.matches_condition name pattern ctype = PRes.ok b)
    (h2 : List.Forall₂ (fun ch m =>
        scanner.matches_condition name ch.pattern ch.ctype = PRes.ok m) chains bs) :
    scanner.matches_condition_with_chains name pattern ctype chains
      = PRes.ok ((chains.zip bs).foldl (fun r p => chainStep r p.1 p.2) b)
  ∧ scanner.matches_condition_with_chains name pattern ctype []
      = scanner.matches_condition name pattern ctype
  ∧ (∀ (r m : Bool) (ch : ChainLink), ch.operator = none → chainStep r ch m = (r && m)) := by
  refine ⟨?_, ?_, ?_⟩
  · simp only [scanner.matches_condition_with_chains, h1]
    cases chains with
    | nil =>
      cases h2
      rfl
    | cons ch chs =>
      simp only [List.isEmpty_cons, Bool.false_eq_true, if_false]
      exact chainsLoop_eq_foldl name h2 b
  · cases h' : scanner.matches_condition name pattern ctype <;>
      simp [scanner.matches_condition_with_chains, h']
  · intro r m ch hop
    simp [chainStep, hop]

/-- Claim C6, witness: primary `contains "a"` on `"ab"` is true, an `AND`
link on `"b"` keeps it true, an `OR` link on `"z"` keeps it true. -/
theorem chain_evaluation_is_left_fold_witness :
    scanner.matches_condition_with_chains "ab" "a" "contains"
      [⟨"b", "contains", some "AND"⟩, ⟨"z", "contains", some "OR"⟩] = PRes.ok true := by
  have h := chain_evaluation_is_left_fold "ab" "a" "contains"
    [⟨"b", "contains", some "AND"⟩, ⟨"z", "contains", some "OR"⟩] true [true, false]
    rfl (List.Forall₂.cons rfl (List.Forall₂.cons rfl List.Forall₂.nil))
  rw [h.1]
  rfl

/-- The four `not_*` kind strings (present in the scanner's matcher, absent
from the database module's). -/
def notKinds : List String := ["not_contains", "not_startswith", "not_endswith", "not_equals"]

/-- Claim C10.  The two `matches_condition` implementations agree on every
kind except the four `not_*` kinds: there the database matcher falls through
to its `contains` fallback (a plain substring test) while the scanner
negates the corresponding positive test. -/
theorem matchers_agree_except_not_kinds (name pattern ctype : String) :
    (ctype ∉ notKinds →
      db.matches_condition name pattern ctype = scanner.matches_condition name pattern ctype)
  ∧ db.matches_condition name pattern "not_contains"
      = PRes.ok (isSubstring pattern.data name.data)
  ∧ db.matches_condition name pattern "not_startswith"
      = PRes.ok (isSubstring pattern.data name.data)
  ∧ db.matches_condition name pattern "not_endswith"
      = PRes.ok (isSubstring pattern.data name.data)
  ∧ db.matches_condition name pattern "not_equals"
      = PRes.ok (isSubstring pattern.data name.data)
  ∧ scanner.matches_condition name pattern "not_contains"
      = (scanner.matches_condition name pattern "contains").map (fun b => !b)
  ∧ scanner.matches_condition name pattern "not_startswith"
      = (scanner.matches_condition name pattern "startswith").map (fun b => !b)
  ∧ scanner.matches_condition name pattern "not_endswith"
      = (scanner.matches_condition name pattern "endswith").map (fun b => !b)
  ∧ scanner.matches_condition name pattern "not_equals"
      = (scanner.matches_condition name pattern "equals").map (fun b => !b) := by
  refine ⟨?_, rfl, rfl, rfl, rfl, rfl, rfl, rfl, rfl⟩
  intro h
  simp only [notKinds, List.mem_cons, List.not_mem_nil, or_false, not_or] at h
  obtain ⟨n1, n2, n3, n4⟩ := h
  by_cases e1 : ctype = "contains"
  · subst e1; rfl
  by_cases e2 : ctype = "startswith"
  · subst e2; rfl
  by_cases e3 : ctype = "endswith"
  · subst e3; rfl
  by_cases e4 : ctype = "equals"
  · subst e4; rfl
  by_cases e5 : ctype = "regex"
  · subst e5; rfl
  by_cases e6 : ctype = "intuitive"
  · subst e6; rfl
  by_cases e7 : ctype = "extract_job_number"
  · subst e7; rfl
  by_cases e8 : ctype = "extract_customer"
  · subst e8; rfl
  by_cases e9 : ctype = "extract_date"
  · subst e9; rfl
  simp [db.matches_condition, scanner.matches_condition,
    e1, e2, e3, e4, e5, e6, e7, e8, e9, n1, n2, n3, n4]

/-- Claim C10, witness: a known kind on which the two matchers agree. -/
theorem matchers_agree_except_not_kinds_witness :
    db.matches_condition "Part-01234" "0123" "contains"
      = scanner.matches_condition "Part-01234" "0123" "contains" :=
  (matchers_agree_except_not_kinds "Part-01234" "0123" "contains").1 (by decide)

/-- The inner condition loop of the bulk-apply path folds `bulkStep` over
the conditions, starting from the item's current alias, provided no enabled
condition's matcher raises on the item's name. -/
theorem applyCondsLoop_foldl (conds : List NamingCondition) :
    ∀ it : Item,
      (∀ c ∈ conds, c.enabled = true →
        (db.matches_condition_with_chains it.name c.pattern c.ctype c.chains).isOk = true) →
      db.applyCondsLoop it conds
        = PRes.ok ⟨it.name, conds.foldl (fun al c => bulkStep it.name al c) it.alias⟩ := by
  induction conds with
  | nil =>
    intro it _
    rfl
  | cons c cs ih =>
    intro it h
    have hrest : ∀ c' ∈ cs, c'.enabled = true →
        (db.matches_condition_with_chains it.name c'.pattern c'.ctype c'.chains).isOk = true :=
      fun c' hc' => h c' (by simp [hc'])
    by_cases he : c.enabled = true
    · cases hm : db.matches_condition_with_chains it.name c.pattern c.ctype c.chains with
      | exn er =>
        exfalso
        have hok := h c (by simp) he
        rw [hm] at hok
        simp [PRes.isOk] at hok
      | ok b =>
        cases b with
        | false =>
          have hstep : db.apply_condition_to_item it c = PRes.ok it.name := by
            simp [db.apply_condition_to_item, hm]
          have hb : bulkStep it.name it.alias c = it.alias := by
            simp [bulkStep, he, hm]
          simp only [db.applyCondsLoop, he, if_true, hstep, if_neg (by simp : ¬(it.name ≠ it.name)),
            List.foldl_cons, hb]
          exact ih it hrest
        | true =>
          have hstep : db.apply_condition_to_item it c
              = PRes.ok (db.apply_replacement it.name c.pattern c.replacement c.ctype) := by
            simp [db.apply_condition_to_item, hm]
          by_cases hR : db.apply_replacement it.name c.pattern c.replacement c.ctype = it.name
          · have hb : bulkStep it.name it.alias c = it.alias := by
              simp [bulkStep, he, hm, hR]
            simp only [db.applyCondsLoop, he, if_true, hstep, if_pos trivial, List.foldl_cons, hb]
            rw [if_neg (by simp [hR] : ¬(db.apply_replacement it.name c.pattern c.replacement
              c.ctype ≠ it.name))]
            exact ih it hrest
          · have hb : bulkStep it.name it.alias c
                = db.apply_replacement it.name c.pattern c.replacement c.ctype := by
              simp [bulkStep, he, hm, hR]
            simp only [db.applyCondsLoop, he, if_true, hstep, List.foldl_cons, hb]
            rw [if_pos (by simp [hR] : (db.apply_replacement it.name c.pattern c.replacement
              c.ctype ≠ it.name))]
            exact ih ⟨it.name, db.apply_replacement it.name c.pattern c.replacement c.ctype⟩ hrest
    · have he' : c.enabled = false := by
        cases hde : c.enabled
        · rfl
        · exact absurd hde he
      have hb : bulkStep it.name it.alias c = it.alias := by
        simp [bulkStep, he']
      simp only [db.applyCondsLoop, he', Bool.false_eq_true, if_false, List.foldl_cons, hb]
      exact ih it hrest

/-- Claim C5, amended.  In the bulk-apply path every enabled matching
condition's replacement (always computed from the item's original name)
overwrites the alias in list order, except that a replacement equal to the
original name leaves the alias untouched; hence the final alias is set by
the last enabled matching condition whose replacement differs from the
name. -/
theorem bulk_apply_last_change_wins (items : List Item) (conds : List NamingCondition)
    (h : ∀ it ∈ items, ∀ c ∈ conds, c.enabled = true →
        (db.matches_condition_with_chains it.name c.pattern c.ctype c.chains).isOk = true) :
    db.apply_naming_conditions_to_structure items conds
      = PRes.ok (items.map (fun it =>
          ⟨it.name, conds.foldl (fun al c => bulkStep it.name al c) it.alias⟩)) := by
  induction items with
  | nil => rfl
  | cons it its ih =>
    have h1 := applyCondsLoop_foldl conds it (h it (by simp))
    have h2 := ih (fun it' hit' => h it' (by simp [hit']))
    simp only [db.apply_naming_conditions_to_structure, h1, h2, List.map_cons]

/-- Claim C5, counterexample.  Item `"ab"` with two enabled matching
conditions: the first rewrites the alias to `"xb"`; the second matches and
its replacement is `"ab"` — equal to the original name — so the guard
`new_alias != item['name']` skips the overwrite and the final alias stays
`"xb"`, not the last matching condition's replacement `"ab"`. -/
theorem bulk_apply_counterexample :
    db.apply_naming_conditions_to_structure [⟨"ab", "ab"⟩]
      [⟨"contains", "a", "x", [], true⟩, ⟨"contains", "b", "b", [], true⟩]
      = PRes.ok [⟨"ab", "xb"⟩]
  ∧ db.matches_condition_with_chains "ab" "b" "contains" [] = PRes.ok true
  ∧ db.apply_replacement "ab" "b" "b" "contains" = "ab"
  ∧ ("xb" : String) ≠ "ab" := by
  exact ⟨rfl, rfl, rfl, by decide⟩

/-- Claim C5, witness for the amended fold characterization. -/
theorem bulk_apply_last_change_wins_witness :
    db.apply_naming_conditions_to_structure [⟨"ab", "ab"⟩]
      [⟨"contains", "a", "x", [], true⟩, ⟨"contains", "b", "b", [], true⟩]
      = PRes.ok [⟨"ab", "xb"⟩] := by
  have h := bulk_apply_last_change_wins [⟨"ab", "ab"⟩]
    [⟨"contains", "a", "x", [], true⟩, ⟨"contains", "b", "b", [], true⟩] (by decide)
  rw [h]
  rfl
